import Mathlib

/-!
Verification development for the steno-lead-gen pipeline
(`src/enrich_contacts.py` and `src/score_rank.py`).

The Python code is shallowly embedded: pure helper functions become Lean
functions over `String` / `List Char`, Python sets are modelled as lists
with membership as the interface, and the effectful parts (HTTP fetching,
HTML parsing with BeautifulSoup, and the Reddit API) are passed in as
oracle parameters, while all the control flow around them is translated
from the source.  Unicode-specific behaviour of Python string methods is
modelled for the ASCII range.
-/

/-- Characters treated as whitespace by Python `str.strip` and by the
regex class backslash-s, restricted to the ASCII range. -/
def pyIsSpace (c : Char) : Bool :=
  c == ' ' || c == '\t' || c == '\n' || c == '\r' || c == '\x0b' || c == '\x0c'

/-- List-level prefix test (Python `str.startswith` on exploded strings). -/
def startsWithL : List Char → List Char → Bool
  | [], _ => true
  | _ :: _, [] => false
  | p :: ps, c :: cs => p == c && startsWithL ps cs

/-- List-level substring test: `containsL needle hay` is Python
`needle in hay`. -/
def containsL (needle : List Char) : List Char → Bool
  | [] => startsWithL needle []
  | c :: rest => startsWithL needle (c :: rest) || containsL needle rest

/-- Python `str.lower`, ASCII range. -/
def pyLower (s : String) : String :=
  String.mk (s.toList.map Char.toLower)

/-- Python `str.strip()` with no argument (trim whitespace on both ends). -/
def pyStrip (s : String) : String :=
  String.mk (((s.toList.dropWhile pyIsSpace).reverse.dropWhile pyIsSpace).reverse)

/-- Python `s.startswith(p)`. -/
def pyStartsWith (s p : String) : Bool :=
  startsWithL p.toList s.toList

/-- Python `s.endswith(p)`. -/
def pyEndsWith (s p : String) : Bool :=
  startsWithL p.toList.reverse s.toList.reverse

/-- Python `sub in s` (substring containment). -/
def pyIn (sub s : String) : Bool :=
  containsL sub.toList s.toList

/-- Stop characters of the regex `URL_RE = https?://[^\s)\]]+` from
`enrich_contacts.py` line 19: a URL token runs up to the first
whitespace, `)` or `]`. -/
def urlBodyChar (c : Char) : Bool :=
  !(pyIsSpace c || c == ')' || c == ']')

/-- One attempt of `URL_RE` at the head of the character list: the scheme
`http://` or `https://` followed by at least one non-stop character,
matched greedily.  Returns the match and the rest of the input. -/
def matchUrlAt (cs : List Char) : Option (List Char × List Char) :=
  if startsWithL "https://".toList cs then
    let rest := cs.drop 8
    let body := rest.takeWhile urlBodyChar
    if body = [] then none else some ("https://".toList ++ body, rest.drop body.length)
  else if startsWithL "http://".toList cs then
    let rest := cs.drop 7
    let body := rest.takeWhile urlBodyChar
    if body = [] then none else some ("http://".toList ++ body, rest.drop body.length)
  else none

/-- Fuelled scanner for `URL_RE.findall`: non-overlapping leftmost
matches, restarting after each match.  Each step consumes at least one
character, so fuel equal to the input length is always enough. -/
def scanUrlsAux : Nat → List Char → List (List Char)
  | 0, _ => []
  | _, [] => []
  | fuel + 1, c :: rest =>
    match matchUrlAt (c :: rest) with
    | some (u, after) => u :: scanUrlsAux fuel after
    | none => scanUrlsAux fuel rest

/-- Python `URL_RE.findall(text)`. -/
def URL_findall (text : String) : List String :=
  (scanUrlsAux text.toList.length text.toList).map String.mk

/-- Python `u.rstrip(").,]")` from `enrich_contacts.py` line 40: strip any
trailing `)`, `.`, `,` or `]` characters. -/
def pyRstripUrlChars (u : String) : String :=
  String.mk ((u.toList.reverse.dropWhile
    (fun c => c == ')' || c == '.' || c == ',' || c == ']')).reverse)

/-- The seen/out loop shared by `extract_urls` (lines 41-44), the
candidate uniquing loop (lines 179-182) and the dedupe loop of
`score_rank.py` (lines 201-207): keep the first occurrence of each key,
where `seen` accumulates the keys already emitted. -/
def dedupeBy {α : Type} {κ : Type} [DecidableEq κ] (key : α → κ) :
    List α → List κ → List α
  | [], _ => []
  | x :: xs, seen =>
    if key x ∈ seen then dedupeBy key xs seen
    else x :: dedupeBy key xs (key x :: seen)

/-- Accumulator-free statement of first-occurrence deduplication: keep
the head and drop its later duplicates. -/
def dedupFirst {α : Type} [DecidableEq α] : List α → List α
  | [] => []
  | x :: xs => x :: dedupFirst (xs.filter (fun y => decide (¬ y = x)))
termination_by l => l.length
decreasing_by simp only [List.length_cons]; exact Nat.lt_succ_of_le (List.length_filter_le _ _)

/-- `extract_urls` from `enrich_contacts.py` lines 38-45: regex matches
with trailing `).,]` stripped, first occurrence of each URL kept. -/
def extract_urls (text : String) : List String :=
  if text = "" then []
  else dedupeBy id ((URL_findall text).map pyRstripUrlChars) []

/-- Numeric value of a run of ASCII digits. -/
def digitsVal (cs : List Char) : Nat :=
  cs.foldl (fun acc c => acc * 10 + (c.toNat - '0'.toNat)) 0

/-- Models Python `int(x)` on a string: optional surrounding whitespace,
an optional sign and a nonempty run of decimal digits; anything else
raises (here: `none`).  Underscore separators and non-ASCII digits are
not modelled. -/
def pyInt? (s : String) : Option Int :=
  let cs := (pyStrip s).toList
  let signed : Int × List Char :=
    match cs with
    | '+' :: t => (1, t)
    | '-' :: t => (-1, t)
    | t => (1, t)
  if signed.2 ≠ [] ∧ signed.2.all Char.isDigit then
    some (signed.1 * (digitsVal signed.2 : Int))
  else none

/-- Truncation-toward-zero of the exact rational `m * 10 ^ e`, with the
overflow behaviour of Python `int(float(...))`: values whose magnitude
reaches `2 ^ 1024` become `inf`, and `int(inf)` raises (here: `none`).
Magnitudes below one truncate to `0`.  The model is exact-rational: the
53-bit rounding of binary doubles is not modelled, and exponents below
`-6000` are taken to underflow to `0`. -/
def floatTrunc (m : Int) (e : Int) : Option Int :=
  if m = 0 then some 0
  else if 320 < e then none
  else if 0 ≤ e then
    let n := m * (10 : Int) ^ e.toNat
    if 2 ^ 1024 ≤ n.natAbs then none else some n
  else if e < -6000 then some 0
  else some (m.tdiv ((10 : Int) ^ (-e).toNat))

/-- Exponent part of a Python float literal: optional sign and a
nonempty digit run, consumed to the end of the string. -/
def pyFloatExp (m : Int) (fracLen : Nat) (t : List Char) : Option Int :=
  let signed : Int × List Char :=
    match t with
    | '+' :: u => (1, u)
    | '-' :: u => (-1, u)
    | u => (1, u)
  if signed.2 ≠ [] ∧ signed.2.all Char.isDigit then
    floatTrunc m (signed.1 * (digitsVal signed.2 : Int) - (fracLen : Int))
  else none

/-- Models Python `int(float(x))` for a decimal literal with optional
fraction and exponent.  `inf` / `nan` spellings are treated as parse
failures, which coincides with `int(...)` raising on them. -/
def pyFloatTrunc? (s : String) : Option Int :=
  let cs := (pyStrip s).toList
  let signed : Int × List Char :=
    match cs with
    | '+' :: t => (1, t)
    | '-' :: t => (-1, t)
    | t => (1, t)
  let ip := signed.2.takeWhile Char.isDigit
  let r2 := signed.2.drop ip.length
  let fracSplit : List Char × List Char :=
    match r2 with
    | '.' :: t => (t.takeWhile Char.isDigit, t.drop (t.takeWhile Char.isDigit).length)
    | t => ([], t)
  let fp := fracSplit.1
  let r3 := fracSplit.2
  if ip = [] ∧ fp = [] then none
  else
    let m : Int := signed.1 * (digitsVal (ip ++ fp) : Int)
    match r3 with
    | [] => floatTrunc m (-(fp.length : Int))
    | 'e' :: t => pyFloatExp m fp.length t
    | 'E' :: t => pyFloatExp m fp.length t
    | _ => none

/-- `to_int` from `score_rank.py` lines 47-54: try `int(x)`, then
`int(float(x))`, then fall back to the default. -/
def to_int (x : String) (default : Int) : Int :=
  match pyInt? x with
  | some n => n
  | none =>
    match pyFloatTrunc? x with
    | some n => n
    | none => default

/-- Scheme characters allowed by `urllib.parse` after the leading
letter: letters, digits, `+`, `-`, `.`. -/
def isSchemeChar (c : Char) : Bool :=
  c.isAlphanum || c == '+' || c == '-' || c == '.'

/-- Looks for a valid `scheme:` prefix and returns the remainder after
the colon, as `urllib.parse.urlparse` does when splitting the scheme. -/
def schemeRest : List Char → Option (List Char)
  | [] => none
  | ':' :: r => some r
  | c :: r => if isSchemeChar c then schemeRest r else none

/-- Models `urlparse(url).netloc`: control characters `\t`, `\r`, `\n`
are removed, surrounding whitespace is stripped, the `scheme:` prefix
(if any, starting with a letter) is dropped, and when the remainder
starts with `//` the netloc runs up to the next `/`, `?` or `#`. -/
def pyNetloc (url : String) : String :=
  let cs := ((pyStrip url).toList).filter (fun c => !(c == '\t' || c == '\r' || c == '\n'))
  let rest :=
    match cs with
    | c :: t =>
      if c.isAlpha then
        match schemeRest t with
        | some r => r
        | none => cs
      else cs
    | [] => []
  if startsWithL "//".toList rest then
    String.mk ((rest.drop 2).takeWhile (fun c => !(c == '/' || c == '?' || c == '#')))
  else ""

/-- `domain` from `enrich_contacts.py` lines 103-108: lowercase netloc
with a leading `www.` stripped. -/
def domain (url : String) : String :=
  let n := pyLower (pyNetloc url)
  if pyStartsWith n "www." then String.mk (n.toList.drop 4) else n

/-- `domain_of` from `score_rank.py` lines 38-45 (same computation, with
an explicit empty-input guard). -/
def domain_of (url : String) : String :=
  if url = "" then ""
  else
    let netloc := pyLower (pyNetloc url)
    if pyStartsWith netloc "www." then String.mk (netloc.toList.drop 4) else netloc

/-- `DIRECT` phrase list from `score_rank.py` lines 67-70. -/
def DIRECT : List String :=
  ["ai twin", "ai of me", "digital twin", "chatbot of me", "ai clone", "clone my voice",
   "voice clone", "personal ai", "my ai assistant", "ai of myself"]

/-- `PAIN` phrase list from `score_rank.py` lines 71-74. -/
def PAIN : List String :=
  ["scale q&a", "answering the same questions", "too many dms", "24/7 answers", "automate q&a",
   "community q&a", "knowledge base of my content", "course support bot"]

/-- `PLATFORM_CUES` phrase list from `score_rank.py` lines 75-78. -/
def PLATFORM_CUES : List String :=
  ["kajabi", "skool", "mighty networks", "mighty", "webflow", "wordpress", "teachable",
   "thinkific", "circle.so", "discord", "slack", "cohort", "community platform",
   "course platform", "support bot", "chatbot"]

/-- `intent_score` from `score_rank.py` lines 80-87: four phrase tiers
checked in order on the lowercased text, default 1. -/
def intent_score (text : String) : Nat :=
  let t := pyLower text
  if DIRECT.any (fun p => pyIn p t) then 5
  else if PAIN.any (fun p => pyIn p t) then 4
  else if PLATFORM_CUES.any (fun p => pyIn p t) &&
      (pyIn "bot" t || pyIn "assistant" t || pyIn "automation" t || pyIn "chatbot" t) then 3
  else if PLATFORM_CUES.any (fun p => pyIn p t) then 2
  else 1

/-- `audience_bucket` from `score_rank.py` lines 89-99. -/
def audience_bucket (platform raw_score : String) : Nat :=
  let s := to_int raw_score 0
  if pyLower platform = "youtube" then
    if 100000 ≤ s then 3
    else if 10000 ≤ s then 2
    else if 1000 ≤ s then 1
    else 0
  else
    if 50 ≤ s then 2
    else if 10 ≤ s then 1
    else 0

/-- Modelled from the spec claim C6, as a refinement target: YouTube
(case-insensitively) buckets at 100000/10000/1000, every other platform
at 50/10, on the raw score coerced through `to_int`. -/
def audience_bucket_spec (platform raw_score : String) : Nat :=
  if pyLower platform = "youtube" then
    if to_int raw_score 0 ≥ 100000 then 3
    else if to_int raw_score 0 ≥ 10000 then 2
    else if to_int raw_score 0 ≥ 1000 then 1
    else 0
  else
    if to_int raw_score 0 ≥ 50 then 2
    else if to_int raw_score 0 ≥ 10 then 1
    else 0

/-- `contactability_score` from `score_rank.py` lines 101-104, with
Python truthiness made explicit: `(email or "").strip()` is non-empty,
else the or-chain `contact_url or website` is non-empty. -/
def contactability_score (email website contact_url : String) : Nat :=
  if pyStrip email ≠ "" then 2
  else if (if contact_url ≠ "" then contact_url else website) ≠ "" then 1
  else 0

/-- Modelled from the spec claim C7, as a refinement target: 2 when an
email with non-whitespace content is present, 1 when a contact_url or a
website is present and no email, 0 otherwise. -/
def contactability_spec (email website contact_url : String) : Nat :=
  if pyStrip email ≠ "" then 2
  else if contact_url ≠ "" ∨ website ≠ "" then 1
  else 0

/-- Last unix timestamp representable by `datetime` (9999-12-31
23:59:59 UTC); `datetime.fromtimestamp` raises beyond it, and
`recency_score` catches that and returns 0. -/
def datetimeMaxTs : Int := 253402300799

/-- `recency_score` from `score_rank.py` lines 106-115.  The scoring
moment `nowUs` is the current UTC time in microseconds; the `.days` of
the timedelta is the floor of the difference in whole days. -/
def recency_score (nowUs : Int) (created_utc : String) : Nat :=
  let ts := to_int created_utc 0
  if ts ≤ 0 then 0
  else if datetimeMaxTs < ts then 0
  else
    let days := (nowUs - ts * 1000000).fdiv 86400000000
    if days ≤ 3 then 2
    else if days ≤ 7 then 1
    else 0

/-- One row of `data/leads_enriched.csv` as read by `score_rank.py`. -/
structure InRow where
  platform : String
  subreddit : String
  url : String
  author_handle : String
  title : String
  excerpt : String
  evidence_quote : String
  score : String
  created_utc : String
  website : String
  contact_url : String
  email : String
  company : String
deriving DecidableEq

/-- One scored output row of `score_rank.py` (the dict built in lines
176-195). -/
structure RRow where
  platform : String
  prospect_name : String
  company : String
  audience_type : String
  audience_metric : String
  intent_score : Nat
  contactability_score : Nat
  freshness_score : Nat
  total_score : Nat
  website : String
  email : String
  contact_url : String
  evidence_url : String
  evidence_quote : String
  created_date : String
  source_title : String
  source_excerpt : String
  author_handle : String
deriving DecidableEq

/-- `build_text_index` from `score_rank.py` lines 117-120. -/
def build_text_index (r : InRow) : String :=
  r.title ++ " " ++ r.excerpt ++ " " ++ r.evidence_quote

/-- `make_prospect_name` from `score_rank.py` lines 122-125. -/
def make_prospect_name (r : InRow) : String :=
  let h := pyStrip r.author_handle
  if pyStartsWith h "u/" then String.mk (h.toList.drop 2) else h

/-- Vertical bonus computation from `score_rank.py` lines 163-164:
+1 when any allowlisted term occurs in the lowercased
evidence/title/excerpt concatenation. -/
def vertical_bonus (allowTerms : List String) (r : InRow) : Nat :=
  let v_text := pyLower (r.evidence_quote ++ " " ++ r.title ++ " " ++ r.excerpt)
  if allowTerms.any (fun term => pyIn term v_text) then 1 else 0

/-- The per-row scoring of `score_rank.py` lines 151-195.  `allowTerms`
is the vertical allowlist loaded from config (external input), `nowUs`
the scoring moment in microseconds, and `fmtDate` stands for the
external `strftime` date formatting. -/
def scoreRow (allowTerms : List String) (nowUs : Int) (fmtDate : Int → String)
    (r : InRow) : RRow :=
  let platform := pyLower r.platform
  let aud_type := if platform = "youtube" then "yt_subscribers" else "reddit_upvotes"
  let aud_raw := if r.score = "" then "0" else r.score
  let aud_bucket := audience_bucket platform aud_raw
  let i_score := intent_score (build_text_index r)
  let c_score := contactability_score r.email r.website r.contact_url
  let f_score := recency_score nowUs r.created_utc
  let v_bonus := vertical_bonus allowTerms r
  let total := i_score * 2 + aud_bucket + c_score + f_score + v_bonus
  let ts := to_int r.created_utc 0
  let created_iso :=
    if ts ≠ 0 then
      if -62135596800 ≤ ts ∧ ts ≤ datetimeMaxTs then fmtDate ts else ""
    else ""
  { platform := r.platform
    prospect_name := make_prospect_name r
    company := r.company
    audience_type := aud_type
    audience_metric := aud_raw
    intent_score := i_score
    contactability_score := c_score
    freshness_score := f_score
    total_score := total
    website := r.website
    email := r.email
    contact_url := r.contact_url
    evidence_url := r.url
    evidence_quote := r.evidence_quote
    created_date := created_iso
    source_title := r.title
    source_excerpt := String.mk (r.excerpt.toList.take 300)
    author_handle := r.author_handle }

/-- Identity key type returned by `dedupe_key` (`score_rank.py` lines
127-132): a tagged email, a tagged bare domain, or the
(platform, author_handle) pair. -/
inductive DKey where
  | email (e : String)
  | dom (d : String)
  | handle (platform author_handle : String)
deriving DecidableEq

/-- `dedupe_key` from `score_rank.py` lines 127-132: normalized
lowercase email first, else www-stripped bare domain of the website,
else the (platform, author_handle) pair. -/
def dedupe_key (r : RRow) : DKey :=
  let email := pyLower (pyStrip r.email)
  if email ≠ "" then DKey.email email
  else
    let dom := domain_of r.website
    if dom ≠ "" then DKey.dom dom
    else DKey.handle r.platform r.author_handle

/-- Stable insertion step of Python `list.sort` / `sorted`: a later
element `a` is placed after every already-sorted element `x` with
`le x a`. -/
def insertBy {α : Type} (le : α → α → Bool) (a : α) : List α → List α
  | [] => [a]
  | x :: xs => if le x a then x :: insertBy le a xs else a :: x :: xs

/-- Stable insertion sort with respect to the boolean relation `le`. -/
def sortBy {α : Type} (le : α → α → Bool) : List α → List α
  | [] => []
  | x :: xs => insertBy le x (sortBy le xs)

/-- Comparison used by `scored.sort(key=lambda x: x["total_score"],
reverse=True)` in `score_rank.py` line 198: descending total_score. -/
def scoredLe (x y : RRow) : Bool :=
  decide (y.total_score ≤ x.total_score)

/-- The sort of `score_rank.py` line 198. -/
def sort_scored (l : List RRow) : List RRow :=
  sortBy scoredLe l

/-- The dedupe loop of `score_rank.py` lines 201-207. -/
def dedupe_scored (l : List RRow) : List RRow :=
  dedupeBy dedupe_key l []

/-- `PREFER_ORDER` from `enrich_contacts.py` lines 73-76. -/
def PREFER_ORDER : List String :=
  ["speaking", "press", "media", "partnership", "sponsor", "booking",
   "ceo", "founder", "hello", "team", "contact", "info", "support"]

/-- Local part scanned by `rank_email`: the lowercased email split at
the first `@` (`e.split("@")[0]`). -/
def localOf (em : String) : List Char :=
  (pyLower em).toList.takeWhile (fun c => !(c == '@'))

/-- Index of the first keyword (in list order) contained in the local
part, mirroring the `for i, kw in enumerate(PREFER_ORDER)` loop. -/
def firstKw (lo : List Char) : List String → Option Nat
  | [] => none
  | kw :: rest =>
    if containsL kw.toList lo then some 0
    else (firstKw lo rest).map (· + 1)

/-- `rank_email` from `enrich_contacts.py` lines 78-83: first matching
keyword index, else list length, plus one more for gmail addresses. -/
def rank_email (em : String) : Nat :=
  match firstKw (localOf em) PREFER_ORDER with
  | some i => i
  | none =>
    PREFER_ORDER.length + (if pyEndsWith (pyLower em) "@gmail.com" then 1 else 0)

/-- Comparison of `sorted(emails, key=rank_email)`. -/
def emailLe (x y : String) : Bool :=
  decide (rank_email x ≤ rank_email y)

/-- The best-email selection of `enrich_contacts.py` lines 207-209:
head of the rank-sorted email list, empty when there are no emails. -/
def best_email_of (emails : List String) : String :=
  match sortBy emailLe emails with
  | [] => ""
  | e :: _ => e

/-- `extract_emails` from `enrich_contacts.py` lines 47-54, with the
external parsing steps passed in: `reMatches` is what
`EMAIL_RE.findall(html)` produced and `hrefs` the href values collected
by BeautifulSoup.  The embedded part is the set construction: mailto
hrefs lose their scheme, addresses ending (case-insensitively) in
`@example.com` are dropped, and the survivors are stripped — in that
order.  The list models the Python set; membership is the interface. -/
def extract_emails (reMatches hrefs : List String) : List String :=
  let fromHrefs :=
    (hrefs.filter (fun h => pyStartsWith (pyLower h) "mailto:")).map
      (fun h => String.mk (h.toList.drop 7))
  let emails := reMatches ++ fromHrefs
  (emails.filter (fun e => !(pyEndsWith (pyLower e) "@example.com"))).map pyStrip

/-- `HUB_DOMAINS` from `enrich_contacts.py` line 20. -/
def HUB_DOMAINS : List String :=
  ["linktr.ee", "beacons.ai", "solo.to", "withkoji", "koji.to", "carrd.co", "tap.bio", "shor.by"]

/-- Python `d.endswith(HUB_DOMAINS)` — suffix match against any hub
domain (used for hub expansion, line 172). -/
def isHubLike (d : String) : Bool :=
  HUB_DOMAINS.any (fun h => pyEndsWith d h)

/-- Social domains filtered out of the candidate list
(`enrich_contacts.py` line 177). -/
def SOCIAL_SITES : List String :=
  ["twitter.com", "x.com", "instagram.com", "tiktok.com"]

/-- Set union `s |= t` modelled on lists: keep `xs` and append the
elements of `ys` not already present. -/
def unionList (xs ys : List String) : List String :=
  xs ++ ys.filter (fun y => decide (¬ y ∈ xs))

/-- The effectful collaborators of the contact resolver, abstracted as
oracles: `fetch` is `safe_get` (empty string for failure), `emailsOf`
and `titleOf` are `extract_emails` / `page_title` applied to fetched
HTML, `hubLinks` is `hub_expand`, `site` is `collect_from_site`
returning (emails, title, contact_url), and `redditLinks` is
`reddit_links`. -/
structure Oracles where
  fetch : String → String
  emailsOf : String → List String
  titleOf : String → String
  hubLinks : String → List String
  site : String → List String × String × String
  redditLinks : String → List String

/-- Mutable state of the per-lead enrichment loop
(`enrich_contacts.py` lines 158-205), instrumented with `probed`: the
list of URLs on which `collect_from_site` (the Site Prober) was
invoked. -/
structure EnrichState where
  website : String
  contact_url : String
  company : String
  emails : List String
  probed : List String

/-- Candidate link assembly of `enrich_contacts.py` lines 160-183:
source links from reddit or the excerpt, hub expansion for links whose
domain ends with a hub domain, social-site filtering, first-seen
dedup, cap at 5. -/
def buildCandidates (o : Oracles) (platform url excerpt : String) : List String :=
  let candidates :=
    if pyLower platform = "reddit" then o.redditLinks url else extract_urls excerpt
  let expanded := candidates.foldl
    (fun acc u => if isHubLike (domain u) then acc ++ o.hubLinks u else acc) []
  let all := candidates ++ expanded
  let kept := all.filter (fun u => !(SOCIAL_SITES.any (fun s => pyIn s u)))
  (dedupeBy id kept []).take 5

/-- One iteration of the candidate-visiting loop
(`enrich_contacts.py` lines 186-200).  The Site Prober is invoked
(and recorded in `probed`) exactly when the candidate fetch succeeded
and its domain is not a member of `HUB_DOMAINS`. -/
def visit (o : Oracles) (st : EnrichState) (link : String) : EnrichState :=
  let html := o.fetch link
  if html = "" then st
  else
    let website := if st.website = "" ∧ domain link ≠ "" then link else st.website
    let company := if st.company ≠ "" then st.company else o.titleOf html
    let emails := unionList st.emails (o.emailsOf html)
    if HUB_DOMAINS.contains (domain link) = false then
      let probe := o.site link
      { website := website
        contact_url := if st.contact_url ≠ "" then st.contact_url else probe.2.2
        company := if company ≠ "" then company else probe.2.1
        emails := unionList emails probe.1
        probed := st.probed ++ [link] }
    else
      { st with website := website, company := company, emails := emails }

/-- State after the candidate loop, before the fallback
(`enrich_contacts.py` lines 186-200). -/
def enrichLoopState (o : Oracles) (platform url excerpt : String) : EnrichState :=
  (buildCandidates o platform url excerpt).foldl (visit o)
    { website := "", contact_url := "", company := "", emails := [], probed := [] }

/-- Full per-lead contact resolution including the no-email fallback of
`enrich_contacts.py` lines 203-205, which probes `website` when the
loop found no emails. -/
def enrichContacts (o : Oracles) (platform url excerpt : String) : EnrichState :=
  let st := enrichLoopState o platform url excerpt
  if st.emails = [] ∧ st.website ≠ "" then
    let probe := o.site st.website
    { st with
      emails := unionList st.emails probe.1
      company := if st.company ≠ "" then st.company else probe.2.1
      contact_url := if st.contact_url ≠ "" then st.contact_url else probe.2.2
      probed := st.probed ++ [st.website] }
  else st

/-- Oracle world for the concrete hub scenario: every fetch returns the
same email-free page, the hub page lists no outbound links, and the
Site Prober finds nothing. -/
def hubOracle : Oracles where
  fetch := fun _ => "<html><body>hello</body></html>"
  emailsOf := fun _ => []
  titleOf := fun _ => ""
  hubLinks := fun _ => []
  site := fun _ => ([], "", "")
  redditLinks := fun _ => []

/-- Concrete scored row used to instantiate the dedupe theorems. -/
def witnessRow : RRow where
  platform := "reddit"
  prospect_name := "alice"
  company := ""
  audience_type := "reddit_upvotes"
  audience_metric := "12"
  intent_score := 4
  contactability_score := 2
  freshness_score := 1
  total_score := 12
  website := ""
  email := "alice@site.org"
  contact_url := ""
  evidence_url := ""
  evidence_quote := ""
  created_date := ""
  source_title := ""
  source_excerpt := ""
  author_handle := "alice"

-- ---------------------------------------------------------------------
-- Generic lemmas about the dedupe loop
-- ---------------------------------------------------------------------

theorem dedupFirst_nil {α : Type} [DecidableEq α] :
    dedupFirst ([] : List α) = [] := by
  rw [dedupFirst.eq_def]

theorem dedupFirst_cons {α : Type} [DecidableEq α] (x : α) (xs : List α) :
    dedupFirst (x :: xs) = x :: dedupFirst (xs.filter (fun y => decide (¬ y = x))) := by
  rw [dedupFirst.eq_def]

theorem dedupeBy_sublist {α κ : Type} [DecidableEq κ] (key : α → κ) :
    ∀ (l : List α) (seen : List κ), List.Sublist (dedupeBy key l seen) l := by
  intro l
  induction l with
  | nil => intro seen; simp [dedupeBy]
  | cons x xs ih =>
    intro seen
    simp only [dedupeBy]
    split
    · exact (ih seen).cons x
    · exact (ih (key x :: seen)).cons₂ x

theorem dedupeBy_keys_nodup {α κ : Type} [DecidableEq κ] (key : α → κ) :
    ∀ (l : List α) (seen : List κ),
      ((dedupeBy key l seen).map key).Nodup ∧
        ∀ k ∈ (dedupeBy key l seen).map key, k ∉ seen := by
  intro l
  induction l with
  | nil => intro seen; simp [dedupeBy]
  | cons x xs ih =>
    intro seen
    simp only [dedupeBy]
    split
    · exact ih seen
    · rename_i hx
      obtain ⟨hnd, hout⟩ := ih (key x :: seen)
      refine ⟨?_, ?_⟩
      · simp only [List.map_cons, List.nodup_cons]
        refine ⟨fun hmem => ?_, hnd⟩
        exact (hout _ hmem) (List.mem_cons_self _ _)
      · intro k hk
        simp only [List.map_cons, List.mem_cons] at hk
        rcases hk with rfl | hk
        · exact hx
        · intro hks
          exact (hout _ hk) (List.mem_cons_of_mem _ hks)

theorem dedupeBy_eq_self {α κ : Type} [DecidableEq κ] (key : α → κ) :
    ∀ (l : List α) (seen : List κ),
      (l.map key).Nodup → (∀ k ∈ l.map key, k ∉ seen) →
      dedupeBy key l seen = l := by
  intro l
  induction l with
  | nil => intro seen _ _; simp [dedupeBy]
  | cons x xs ih =>
    intro seen hnd hout
    simp only [List.map_cons, List.nodup_cons] at hnd
    have hxseen : key x ∉ seen := hout _ (by simp)
    simp only [dedupeBy, if_neg hxseen]
    congr 1
    refine ih _ hnd.2 ?_
    intro k hk
    simp only [List.mem_cons, not_or]
    refine ⟨?_, hout _ (List.mem_cons_of_mem _ hk)⟩
    intro hkk
    exact hnd.1 (hkk ▸ hk)

theorem dedupeBy_id_eq_dedupFirst {α : Type} [DecidableEq α] :
    ∀ (l : List α) (seen : List α),
      dedupeBy id l seen = dedupFirst (l.filter (fun y => decide (¬ y ∈ seen))) := by
  intro l
  induction l with
  | nil => intro seen; simp [dedupeBy, dedupFirst_nil]
  | cons x xs ih =>
    intro seen
    by_cases hx : x ∈ seen
    · have h1 : dedupeBy id (x :: xs) seen = dedupeBy id xs seen := by
        simp [dedupeBy, hx]
      have h2 : (x :: xs).filter (fun y => decide (¬ y ∈ seen)) =
          xs.filter (fun y => decide (¬ y ∈ seen)) := by
        simp [List.filter_cons, hx]
      rw [h1, h2, ih]
    · have h1 : dedupeBy id (x :: xs) seen = x :: dedupeBy id xs (x :: seen) := by
        simp [dedupeBy, hx]
      have h2 : (x :: xs).filter (fun y => decide (¬ y ∈ seen)) =
          x :: xs.filter (fun y => decide (¬ y ∈ seen)) := by
        simp [List.filter_cons, hx]
      rw [h1, h2, dedupFirst_cons]
      congr 1
      rw [ih (x :: seen), List.filter_filter]
      congr 1
      apply List.filter_congr
      intro y _
      by_cases hyx : y = x
      · subst hyx; simp
      · by_cases hys : y ∈ seen <;> simp [hyx, hys]

-- ---------------------------------------------------------------------
-- C1: extract_urls
-- ---------------------------------------------------------------------

/-- C1 (counterexample): `extract_urls` does not exclude URLs containing
`reddit.com`; on a text that is exactly a reddit link, the link is
returned, so the claimed reddit/redd.it exclusion is false. -/
theorem extract_urls_reddit_not_excluded :
    extract_urls "https://reddit.com/r/x" = ["https://reddit.com/r/x"] ∧
      pyIn "reddit.com" "https://reddit.com/r/x" = true := by
  exact ⟨by decide, by decide⟩

/-- C1 (amended): for every input text, `extract_urls` returns the
`http(s)://` tokens of the text (each running to the first whitespace,
`)` or `]`) with trailing `.`, `)`, `]`, `,` characters stripped,
deduplicated keeping the first occurrence of each URL — with no
reddit.com / redd.it filtering. -/
theorem extract_urls_amended (text : String) :
    extract_urls text = dedupFirst ((URL_findall text).map pyRstripUrlChars) ∧
      (extract_urls text).Nodup ∧
      List.Sublist (extract_urls text) ((URL_findall text).map pyRstripUrlChars) := by
  have hkey : ∀ (l : List String), (dedupeBy id l []).Nodup := by
    intro l
    have h := (dedupeBy_keys_nodup (α := String) id l []).1
    simpa using h
  refine ⟨?_, ?_, ?_⟩
  · by_cases h : text = ""
    · subst h
      have hu : URL_findall "" = [] := by decide
      simp [extract_urls, hu, dedupFirst_nil]
    · simp only [extract_urls, if_neg h]
      rw [dedupeBy_id_eq_dedupFirst]
      congr 1
      apply (List.filter_eq_self).mpr
      intro a _
      simp
  · by_cases h : text = ""
    · simp [extract_urls, h]
    · simp only [extract_urls, if_neg h]
      exact hkey _
  · by_cases h : text = ""
    · simp [extract_urls, h]
    · simp only [extract_urls, if_neg h]
      exact dedupeBy_sublist id _ []

-- ---------------------------------------------------------------------
-- Generic lemmas about stable insertion sort
-- ---------------------------------------------------------------------

theorem insertBy_perm {α : Type} (le : α → α → Bool) (a : α) :
    ∀ l : List α, List.Perm (insertBy le a l) (a :: l) := by
  intro l
  induction l with
  | nil => simp [insertBy]
  | cons x xs ih =>
    simp only [insertBy]
    split
    · exact (ih.cons x).trans (List.Perm.swap a x xs)
    · exact List.Perm.refl _

theorem sortBy_perm {α : Type} (le : α → α → Bool) :
    ∀ l : List α, List.Perm (sortBy le l) l := by
  intro l
  induction l with
  | nil => simp [sortBy]
  | cons x xs ih =>
    exact (insertBy_perm le x (sortBy le xs)).trans (ih.cons x)

theorem insertBy_pairwise {α : Type} (le : α → α → Bool)
    (htot : ∀ x y, le x y = false → le y x = true)
    (htr : ∀ x y z, le x y = true → le y z = true → le x z = true)
    (a : α) :
    ∀ l : List α, l.Pairwise (fun x y => le x y = true) →
      (insertBy le a l).Pairwise (fun x y => le x y = true) := by
  intro l
  induction l with
  | nil => intro _; simp [insertBy]
  | cons x xs ih =>
    intro hp
    rw [List.pairwise_cons] at hp
    obtain ⟨hhead, htail⟩ := hp
    simp only [insertBy]
    split
    · rename_i hxa
      rw [List.pairwise_cons]
      refine ⟨?_, ih htail⟩
      intro y hy
      have hmem := List.mem_cons.mp ((insertBy_perm le a xs).mem_iff.mp hy)
      rcases hmem with rfl | hyxs
      · exact hxa
      · exact hhead y hyxs
    · rename_i hxa
      have hax : le a x = true := htot _ _ (by simpa using hxa)
      rw [List.pairwise_cons]
      refine ⟨?_, List.pairwise_cons.mpr ⟨hhead, htail⟩⟩
      intro y hy
      rcases List.mem_cons.mp hy with rfl | hyxs
      · exact hax
      · exact htr _ _ _ hax (hhead y hyxs)

theorem sortBy_pairwise {α : Type} (le : α → α → Bool)
    (htot : ∀ x y, le x y = false → le y x = true)
    (htr : ∀ x y z, le x y = true → le y z = true → le x z = true) :
    ∀ l : List α, (sortBy le l).Pairwise (fun x y => le x y = true) := by
  intro l
  induction l with
  | nil => simp [sortBy]
  | cons x xs ih =>
    exact insertBy_pairwise le htot htr x _ ih

theorem scoredLe_total (x y : RRow) : scoredLe x y = false → scoredLe y x = true := by
  simp only [scoredLe, decide_eq_false_iff_not, decide_eq_true_eq, not_le]
  omega

theorem scoredLe_trans (x y z : RRow) :
    scoredLe x y = true → scoredLe y z = true → scoredLe x z = true := by
  simp only [scoredLe, decide_eq_true_eq]
  omega

theorem sort_scored_sorted (l : List RRow) :
    (sort_scored l).Pairwise (fun x y => y.total_score ≤ x.total_score) := by
  have h := sortBy_pairwise scoredLe scoredLe_total scoredLe_trans l
  exact h.imp (fun hxy => by simpa [scoredLe] using hxy)

theorem dedupeBy_represents (l : List RRow) :
    ∀ seen : List DKey,
      l.Pairwise (fun x y => y.total_score ≤ x.total_score) →
      ∀ r ∈ l, dedupe_key r ∉ seen →
        ∃ r' ∈ dedupeBy dedupe_key l seen,
          dedupe_key r' = dedupe_key r ∧ r.total_score ≤ r'.total_score := by
  induction l with
  | nil => intro seen _ r hr; simp at hr
  | cons x xs ih =>
    intro seen hp r hr hseen
    rw [List.pairwise_cons] at hp
    obtain ⟨hhead, htail⟩ := hp
    rcases List.mem_cons.mp hr with rfl | hrxs
    · simp only [dedupeBy, if_neg hseen]
      exact ⟨r, List.mem_cons_self _ _, rfl, le_refl _⟩
    · by_cases hx : dedupe_key x ∈ seen
      · simp only [dedupeBy, if_pos hx]
        exact ih seen htail r hrxs hseen
      · simp only [dedupeBy, if_neg hx]
        by_cases hkey : dedupe_key r = dedupe_key x
        · exact ⟨x, List.mem_cons_self _ _, hkey.symm, hhead r hrxs⟩
        · have hnotin : dedupe_key r ∉ dedupe_key x :: seen := by
            simp only [List.mem_cons, not_or]
            exact ⟨hkey, hseen⟩
          obtain ⟨r', hr', hk', hs'⟩ := ih (dedupe_key x :: seen) htail r hrxs hnotin
          exact ⟨r', List.mem_cons_of_mem _ hr', hk', hs'⟩

-- ---------------------------------------------------------------------
-- C3: sort + dedupe keeps the highest-scoring representative per key
-- ---------------------------------------------------------------------

/-- C3: after sorting by descending total_score, the dedupe loop keeps a
subset of the sorted rows, its identity keys (normalized email, else
bare domain, else platform/handle pair, per `dedupe_key`) are pairwise
distinct, and every input row is represented by a surviving row with
the same key and at least its total_score — the highest-scoring
representative of each identity survives. -/
theorem dedupe_after_sort_correct (rows : List RRow) :
    List.Sublist (dedupe_scored (sort_scored rows)) (sort_scored rows) ∧
      ((dedupe_scored (sort_scored rows)).map dedupe_key).Nodup ∧
      ∀ r ∈ rows, ∃ r' ∈ dedupe_scored (sort_scored rows),
        dedupe_key r' = dedupe_key r ∧ r.total_score ≤ r'.total_score := by
  refine ⟨dedupeBy_sublist _ _ _, (dedupeBy_keys_nodup _ _ _).1, ?_⟩
  intro r hr
  have hrs : r ∈ sort_scored rows := (sortBy_perm scoredLe rows).mem_iff.mpr hr
  exact dedupeBy_represents (sort_scored rows) [] (sort_scored_sorted rows) r hrs
    (by simp)

/-- C3 (witness): instantiation on a concrete one-row list. -/
theorem dedupe_after_sort_correct_witness :
    ∃ r' ∈ dedupe_scored (sort_scored [witnessRow]),
      dedupe_key r' = dedupe_key witnessRow ∧
        witnessRow.total_score ≤ r'.total_score := by
  exact (dedupe_after_sort_correct [witnessRow]).2.2 witnessRow (List.mem_singleton.mpr rfl)

-- ---------------------------------------------------------------------
-- C9: the dedupe loop is idempotent
-- ---------------------------------------------------------------------

/-- C9: running the dedupe loop of `score_rank.py` a second time on its
own output returns exactly the same rows in the same order. -/
theorem dedupe_scored_idempotent (l : List RRow) :
    dedupe_scored (dedupe_scored l) = dedupe_scored l := by
  unfold dedupe_scored
  apply dedupeBy_eq_self
  · exact (dedupeBy_keys_nodup dedupe_key l []).1
  · intro k _
    simp

-- ---------------------------------------------------------------------
-- C5: intent score tiers in strict priority order
-- ---------------------------------------------------------------------

/-- C5: the intent score is decided by the first matching tier in
priority order — DIRECT phrases give 5, PAIN phrases 4, platform cues
plus an automation/bot word 3, platform cues alone 2, otherwise 1 — and
in particular any text containing the direct phrase "ai clone" scores
5 even when a pain-point phrase is also present. -/
theorem intent_score_tiers (text : String) :
    (DIRECT.any (fun p => pyIn p (pyLower text)) = true → intent_score text = 5) ∧
    (DIRECT.any (fun p => pyIn p (pyLower text)) = false →
      PAIN.any (fun p => pyIn p (pyLower text)) = true → intent_score text = 4) ∧
    (DIRECT.any (fun p => pyIn p (pyLower text)) = false →
      PAIN.any (fun p => pyIn p (pyLower text)) = false →
      PLATFORM_CUES.any (fun p => pyIn p (pyLower text)) = true →
      (pyIn "bot" (pyLower text) || pyIn "assistant" (pyLower text) ||
        pyIn "automation" (pyLower text) || pyIn "chatbot" (pyLower text)) = true →
      intent_score text = 3) ∧
    (DIRECT.any (fun p => pyIn p (pyLower text)) = false →
      PAIN.any (fun p => pyIn p (pyLower text)) = false →
      PLATFORM_CUES.any (fun p => pyIn p (pyLower text)) = true →
      (pyIn "bot" (pyLower text) || pyIn "assistant" (pyLower text) ||
        pyIn "automation" (pyLower text) || pyIn "chatbot" (pyLower text)) = false →
      intent_score text = 2) ∧
    (DIRECT.any (fun p => pyIn p (pyLower text)) = false →
      PAIN.any (fun p => pyIn p (pyLower text)) = false →
      PLATFORM_CUES.any (fun p => pyIn p (pyLower text)) = false →
      intent_score text = 1) ∧
    (pyIn "ai clone" (pyLower text) = true →
      PAIN.any (fun p => pyIn p (pyLower text)) = true → intent_score text = 5) := by
  refine ⟨?_, ?_, ?_, ?_, ?_, ?_⟩
  · intro h1
    simp [intent_score, h1]
  · intro h1 h2
    simp [intent_score, h1, h2]
  · intro h1 h2 h3 h4
    simp [intent_score, h1, h2, h3, h4]
  · intro h1 h2 h3 h4
    simp [intent_score, h1, h2, h3, h4]
  · intro h1 h2 h3
    simp [intent_score, h1, h2, h3]
  · intro h1 _
    have hd : DIRECT.any (fun p => pyIn p (pyLower text)) = true := by
      apply List.any_eq_true.mpr
      exact ⟨"ai clone", by simp [DIRECT], h1⟩
    simp [intent_score, hd]

/-- C5 (witness): a text containing both the direct phrase "ai clone"
and the pain-point phrase "answering the same questions" scores 5. -/
theorem intent_score_tiers_witness :
    intent_score "I want an AI clone because I keep answering the same questions" = 5 := by
  exact (intent_score_tiers _).2.2.2.2.2 (by decide) (by decide)

-- ---------------------------------------------------------------------
-- C6: audience bucket thresholds
-- ---------------------------------------------------------------------

/-- C6: `audience_bucket` equals the spec-side thresholding — YouTube
(case-insensitive) at 100000/10000/1000, any other platform at 50/10 —
and a raw score that parses neither as int nor as float coerces to 0. -/
theorem audience_bucket_matches_spec (platform raw : String) :
    audience_bucket platform raw = audience_bucket_spec platform raw ∧
      (pyInt? raw = none → pyFloatTrunc? raw = none → to_int raw 0 = 0) := by
  constructor
  · rfl
  · intro h1 h2
    simp [to_int, h1, h2]

/-- C6 (witness): instantiation at a capitalised platform name and a
non-numeric raw score. -/
theorem audience_bucket_matches_spec_witness :
    audience_bucket "YouTube" "abc" = audience_bucket_spec "YouTube" "abc" ∧
      to_int "abc" 0 = 0 := by
  exact ⟨(audience_bucket_matches_spec "YouTube" "abc").1,
    (audience_bucket_matches_spec "YouTube" "abc").2 (by decide) (by decide)⟩

-- ---------------------------------------------------------------------
-- C7: total score formula and contactability
-- ---------------------------------------------------------------------

/-- C7: every scored row's total_score is
intent×2 + audience_bucket + contactability + freshness + vertical
bonus, and the contactability component matches the spec description (2
with an email present, 1 with a contact_url or website and no email, 0
otherwise), where an email counts as present when it has non-whitespace
content. -/
theorem total_score_formula (allowTerms : List String) (nowUs : Int)
    (fmtDate : Int → String) (r : InRow) :
    ((scoreRow allowTerms nowUs fmtDate r).total_score =
        (scoreRow allowTerms nowUs fmtDate r).intent_score * 2
        + audience_bucket (pyLower r.platform) (if r.score = "" then "0" else r.score)
        + (scoreRow allowTerms nowUs fmtDate r).contactability_score
        + (scoreRow allowTerms nowUs fmtDate r).freshness_score
        + vertical_bonus allowTerms r) ∧
      ∀ e w c, contactability_score e w c = contactability_spec e w c := by
  constructor
  · rfl
  · intro e w c
    unfold contactability_score contactability_spec
    by_cases he : pyStrip e = ""
    · by_cases hc : c = ""
      · by_cases hw : w = "" <;> simp [he, hc, hw]
      · simp [he, hc]
    · simp [he]

-- ---------------------------------------------------------------------
-- C10: freshness of future timestamps
-- ---------------------------------------------------------------------

/-- C10 (counterexample): a created_utc parsing to the positive integer
253402300800 — one second past the last datetime-representable instant
— lies in the future of the scoring moment, yet scores 0 and not 2: the
internal `datetime.fromtimestamp` conversion raises and the handler
returns 0. -/
theorem recency_far_future_scores_0 :
    to_int "253402300800" 0 = 253402300800 ∧
      (0 : Int) < 253402300800 ∧
      (1760227200000000 : Int) < 253402300800 * 1000000 ∧
      recency_score 1760227200000000 "253402300800" = 0 := by
  refine ⟨by decide, by decide, by decide, by decide⟩

/-- C10 (amended): for every created_utc parsing to a positive integer
timestamp that lies in the future of the scoring moment and is
representable as a datetime (at most 253402300799), the freshness score
is 2 — the future post is treated like one at most 3 days old. -/
theorem recency_future_scores_2 (nowUs : Int) (created : String)
    (hpos : 0 < to_int created 0)
    (hmax : to_int created 0 ≤ datetimeMaxTs)
    (hfut : nowUs < to_int created 0 * 1000000) :
    recency_score nowUs created = 2 := by
  unfold recency_score
  rw [if_neg (by omega), if_neg (by omega)]
  have hneg : nowUs - to_int created 0 * 1000000 < 0 := by omega
  have hdays : (nowUs - to_int created 0 * 1000000).fdiv 86400000000 ≤ 3 := by
    have h0 := Int.fdiv_neg' hneg (by norm_num : (0 : Int) < 86400000000)
    omega
  rw [if_pos hdays]

/-- C10 (witness): a timestamp of 100 seconds scored at 50
microseconds after the epoch is in the future and scores 2. -/
theorem recency_future_scores_2_witness :
    recency_score 50 "100" = 2 := by
  exact recency_future_scores_2 50 "100" (by decide) (by decide) (by decide)

-- ---------------------------------------------------------------------
-- C4: email ranking and best-email selection
-- ---------------------------------------------------------------------

theorem firstKw_eq_some_iff (lo : List Char) :
    ∀ (kws : List String) (i : Nat),
      firstKw lo kws = some i ↔
        (i < kws.length ∧ containsL ((kws.getD i "").toList) lo = true ∧
          ∀ j, j < i → containsL ((kws.getD j "").toList) lo = false) := by
  intro kws
  induction kws with
  | nil => intro i; simp [firstKw]
  | cons kw rest ih =>
    intro i
    by_cases h : containsL kw.toList lo = true
    · simp only [firstKw, if_pos h]
      constructor
      · intro h0
        have h0 : i = 0 := (Option.some_inj.mp h0).symm
        subst h0
        exact ⟨by simp, by simpa using h, by omega⟩
      · rintro ⟨_, _, hbefore⟩
        cases i with
        | zero => rfl
        | succ n =>
          have h0 := hbefore 0 (by omega)
          simp only [List.getD_cons_zero] at h0
          rw [h] at h0
          exact absurd h0 (by simp)
    · simp only [firstKw, if_neg h]
      constructor
      · intro hmap
        obtain ⟨n, hn, hni⟩ := Option.map_eq_some'.mp hmap
        subst hni
        obtain ⟨hlen, hcont, hbef⟩ := (ih n).mp hn
        refine ⟨by simp only [List.length_cons]; omega, by simpa using hcont, ?_⟩
        intro j hj
        cases j with
        | zero =>
          simp only [List.getD_cons_zero]
          exact (Bool.not_eq_true _).mp h
        | succ m =>
          have := hbef m (by omega)
          simpa using this
      · rintro ⟨hi, hcont, hbef⟩
        cases i with
        | zero =>
          simp only [List.getD_cons_zero] at hcont
          exact absurd hcont h
        | succ n =>
          have hn : firstKw lo rest = some n := by
            apply (ih n).mpr
            refine ⟨by simp only [List.length_cons] at hi; omega, by simpa using hcont, ?_⟩
            intro j hj
            have := hbef (j + 1) (by omega)
            simpa using this
          rw [hn]
          rfl

theorem firstKw_eq_none_iff (lo : List Char) :
    ∀ kws : List String,
      firstKw lo kws = none ↔
        ∀ j, j < kws.length → containsL ((kws.getD j "").toList) lo = false := by
  intro kws
  induction kws with
  | nil => simp [firstKw]
  | cons kw rest ih =>
    by_cases h : containsL kw.toList lo = true
    · simp only [firstKw, if_pos h]
      constructor
      · intro hfalse; cases hfalse
      · intro hall
        have h0 := hall 0 (by simp)
        simp only [List.getD_cons_zero] at h0
        rw [h] at h0
        exact absurd h0 (by simp)
    · simp only [firstKw, if_neg h]
      constructor
      · intro hmap j hj
        have hrest := Option.map_eq_none'.mp hmap
        cases j with
        | zero =>
          simp only [List.getD_cons_zero]
          exact (Bool.not_eq_true _).mp h
        | succ m =>
          have := (ih.mp hrest) m (by simp only [List.length_cons] at hj; omega)
          simpa using this
      · intro hall
        rw [ih.mpr ?_]
        · rfl
        · intro j hj
          have := hall (j + 1) (by simp only [List.length_cons]; omega)
          simpa using this

theorem emailLe_total (x y : String) : emailLe x y = false → emailLe y x = true := by
  simp only [emailLe, decide_eq_false_iff_not, decide_eq_true_eq, not_le]
  omega

theorem emailLe_trans (x y z : String) :
    emailLe x y = true → emailLe y z = true → emailLe x z = true := by
  simp only [emailLe, decide_eq_true_eq]
  omega

/-- C4: `rank_email` returns the index of the first PREFER_ORDER
keyword contained in the lowercased local part; addresses matching no
keyword rank at the list length, one more for gmail addresses; and on a
non-empty email set the selected best email is a member of the set with
minimal rank. -/
theorem rank_email_priority (emails : List String) (h : emails ≠ []) :
    (∀ em i, i < PREFER_ORDER.length →
        (rank_email em = i ↔
          (containsL ((PREFER_ORDER.getD i "").toList) (localOf em) = true ∧
            ∀ j, j < i →
              containsL ((PREFER_ORDER.getD j "").toList) (localOf em) = false))) ∧
      (∀ em, (∀ j, j < PREFER_ORDER.length →
            containsL ((PREFER_ORDER.getD j "").toList) (localOf em) = false) →
          rank_email em =
            PREFER_ORDER.length +
              (if pyEndsWith (pyLower em) "@gmail.com" then 1 else 0)) ∧
      best_email_of emails ∈ emails ∧
      (∀ e ∈ emails, rank_email (best_email_of emails) ≤ rank_email e) := by
  have hsorted := sortBy_pairwise emailLe emailLe_total emailLe_trans emails
  have hperm := sortBy_perm emailLe emails
  have hne : sortBy emailLe emails ≠ [] := by
    intro hnil
    apply h
    have := hperm.length_eq
    rw [hnil] at this
    exact List.eq_nil_of_length_eq_zero this.symm
  refine ⟨?_, ?_, ?_, ?_⟩
  · intro em i hi
    unfold rank_email
    cases hfk : firstKw (localOf em) PREFER_ORDER with
    | some k =>
      constructor
      · intro hk
        have hk2 : k = i := hk
        subst hk2
        exact ((firstKw_eq_some_iff (localOf em) PREFER_ORDER k).mp hfk).2
      · rintro ⟨hcont, hbef⟩
        have := (firstKw_eq_some_iff (localOf em) PREFER_ORDER i).mpr ⟨hi, hcont, hbef⟩
        rw [hfk] at this
        exact Option.some_inj.mp this
    | none =>
      constructor
      · intro hk
        exfalso
        have hk2 : PREFER_ORDER.length +
            (if pyEndsWith (pyLower em) "@gmail.com" then 1 else 0) = i := hk
        split at hk2 <;> omega
      · rintro ⟨hcont, hbef⟩
        have := (firstKw_eq_some_iff (localOf em) PREFER_ORDER i).mpr ⟨hi, hcont, hbef⟩
        rw [hfk] at this
        cases this
  · intro em hall
    unfold rank_email
    rw [(firstKw_eq_none_iff (localOf em) PREFER_ORDER).mpr hall]
  · cases hsort : sortBy emailLe emails with
    | nil => exact absurd hsort hne
    | cons b t =>
      have hb : best_email_of emails = b := by simp [best_email_of, hsort]
      rw [hb]
      exact hperm.mem_iff.mp (hsort ▸ List.mem_cons_self b t)
  · intro e he
    cases hsort : sortBy emailLe emails with
    | nil => exact absurd hsort hne
    | cons b t =>
      have hb : best_email_of emails = b := by simp [best_email_of, hsort]
      rw [hb]
      have hes : e ∈ b :: t := hsort ▸ hperm.mem_iff.mpr he
      rcases List.mem_cons.mp hes with rfl | het
      · exact le_refl _
      · have hp := hsort ▸ hsorted
        rw [List.pairwise_cons] at hp
        have := hp.1 e het
        simpa [emailLe] using this

/-- C4 (witness): on the set containing an info@ and a press@ address,
the selected best email has minimal rank. -/
theorem rank_email_priority_witness :
    rank_email (best_email_of ["info@a.com", "press@b.com"]) ≤
      rank_email "info@a.com" := by
  exact (rank_email_priority ["info@a.com", "press@b.com"] (by decide)).2.2.2
    "info@a.com" (by decide)

-- ---------------------------------------------------------------------
-- C8: extract_emails and the example.com filter
-- ---------------------------------------------------------------------

/-- C8 (code bug): a mailto href carrying a trailing space slips past
the `@example.com` filter (which runs before `.strip()`), so email
extraction does return an address ending in `@example.com`. -/
theorem extract_emails_example_com_leak :
    extract_emails [] ["mailto:bob@example.com "] = ["bob@example.com"] ∧
      pyEndsWith "bob@example.com" "@example.com" = true := by
  exact ⟨by decide, by decide⟩

-- ---------------------------------------------------------------------
-- C2: hub domains and the Site Prober
-- ---------------------------------------------------------------------

theorem visit_probed_not_hub (o : Oracles) (st : EnrichState) (link : String)
    (hst : ∀ l ∈ st.probed, HUB_DOMAINS.contains (domain l) = false) :
    ∀ l ∈ (visit o st link).probed, HUB_DOMAINS.contains (domain l) = false := by
  intro l hl
  unfold visit at hl
  dsimp only at hl
  split at hl
  · exact hst l hl
  · split at hl
    · rename_i hguard
      dsimp only at hl
      rcases List.mem_append.mp hl with h1 | h2
      · exact hst l h1
      · rw [List.mem_singleton] at h2
        subst h2
        exact hguard
    · exact hst l hl

theorem foldl_visit_probed (o : Oracles) :
    ∀ (cands : List String) (st : EnrichState),
      (∀ l ∈ st.probed, HUB_DOMAINS.contains (domain l) = false) →
      ∀ l ∈ (cands.foldl (visit o) st).probed,
        HUB_DOMAINS.contains (domain l) = false := by
  intro cands
  induction cands with
  | nil => intro st hst; simpa using hst
  | cons c cs ih =>
    intro st hst
    simp only [List.foldl_cons]
    exact ih (visit o st c) (visit_probed_not_hub o st c hst)

/-- C2 (amended): during the candidate-visiting loop the Site Prober is
never invoked on a link whose domain is one of the hub domains; the
only way a hub-domain link can be probed is as the recorded `website`
of the final no-email fallback. -/
theorem hub_probe_guard (o : Oracles) (platform url excerpt : String) :
    (∀ l ∈ (enrichLoopState o platform url excerpt).probed,
        HUB_DOMAINS.contains (domain l) = false) ∧
      (∀ l ∈ (enrichContacts o platform url excerpt).probed,
        HUB_DOMAINS.contains (domain l) = true →
          l = (enrichLoopState o platform url excerpt).website ∧
            (enrichLoopState o platform url excerpt).emails = []) := by
  have hloop : ∀ l ∈ (enrichLoopState o platform url excerpt).probed,
      HUB_DOMAINS.contains (domain l) = false := by
    apply foldl_visit_probed
    intro l hl
    simp at hl
  refine ⟨hloop, ?_⟩
  intro l hl hhub
  unfold enrichContacts at hl
  dsimp only at hl
  split at hl
  · rename_i hcond
    dsimp only at hl
    rcases List.mem_append.mp hl with h1 | h2
    · rw [hloop l h1] at hhub
      cases hhub
    · rw [List.mem_singleton] at h2
      exact ⟨h2, hcond.1⟩
  · rw [hloop l hl] at hhub
    cases hhub

/-- C2 (counterexample): in a concrete oracle world, a linktr.ee
candidate whose page yields no emails becomes the recorded website, and
the no-email fallback then runs the Site Prober directly on that hub
link — refuting the claim that the prober is never invoked on a hub
candidate. -/
theorem hub_probed_by_fallback :
    (enrichContacts hubOracle "youtube" "" "see https://linktr.ee/alice").probed =
        ["https://linktr.ee/alice"] ∧
      HUB_DOMAINS.contains (domain "https://linktr.ee/alice") = true := by
  exact ⟨by decide, by decide⟩

/-- C2 (witness): instantiation of the guard theorem at the concrete
hub scenario. -/
theorem hub_probe_guard_witness :
    "https://linktr.ee/alice" =
        (enrichLoopState hubOracle "youtube" "" "see https://linktr.ee/alice").website ∧
      (enrichLoopState hubOracle "youtube" "" "see https://linktr.ee/alice").emails = [] := by
  exact (hub_probe_guard hubOracle "youtube" "" "see https://linktr.ee/alice").2
    "https://linktr.ee/alice" (by decide) (by decide)
